import Mathlib

/-!
# Verification of the trappi-tools content-extraction pipeline

Shallow embedding of `plugins/browser-automation-lite/skills/browser-automation-lite/
scripts/browser-content.js`: the text cleaning pass (`cleanText`), the DOM-based
fallback extraction (`fallbackExtraction`), and the extraction pipeline with its
quality gate (`extractContent`).  External libraries (jsdom parsing, Readability,
Turndown) are modelled as explicit parameters or as small faithful models of their
documented behaviour; everything written in the repository itself is translated
function-by-function.

Strings are modelled as `List Char`; JS `String.prototype.length` agrees with
`List.length` on the inputs considered here.

Recursions that consume a computed suffix of the input (skipping a matched
region) are written with an explicit fuel argument initialised to the input
length, so that every definition reduces in the kernel; each step consumes at
least one character, so fuel equal to the input length is never exhausted and
the exhaustion branch (which returns the remaining input unchanged) is
unreachable.
-/

set_option maxRecDepth 100000

namespace TrappiTools

/-- The character class of the JS regex `\s` (also the set trimmed by
`String.prototype.trim`): ASCII whitespace, NBSP, and the Unicode space
separators, line separators and BOM. -/
def isWs (c : Char) : Bool :=
  c = ' ' || c = '\t' || c = '\n' || c = '\r' || c = '\x0b' || c = '\x0c' ||
  c = ' ' || c = ' ' || (' ' ≤ c && c ≤ ' ') ||
  c = ' ' || c = ' ' || c = ' ' || c = ' ' ||
  c = '　' || c = '﻿'

/-- `text.replace(/\(\s*\)/g, '')` (browser-content.js line 47), with fuel:
delete every occurrence of `(`, optional whitespace, `)`, scanning left to
right and resuming after each deleted match (JS global-replace semantics; the
greedy `\s*` is deterministic here because `)` is not whitespace). -/
def rmParensF : Nat → List Char → List Char
  | _, [] => []
  | 0, l => l
  | fuel + 1, c :: rest =>
    if c = '(' ∧ (rest.dropWhile isWs).head? = some ')' then
      rmParensF fuel (rest.dropWhile isWs).tail
    else
      c :: rmParensF fuel rest

/-- `text.replace(/\(\s*\)/g, '')` (line 47). -/
def rmParens (l : List Char) : List Char :=
  rmParensF l.length l

/-- `.replace(/\s+/g, ' ')` (line 48): each maximal run of whitespace becomes a
single space.  The flag records whether the previous character was whitespace
(i.e. whether we are inside a run whose single replacement space was already
emitted). -/
def collWsAux (prevWs : Bool) : List Char → List Char
  | [] => []
  | c :: rest =>
    if isWs c then
      if prevWs then collWsAux true rest
      else ' ' :: collWsAux true rest
    else c :: collWsAux false rest

/-- `.replace(/\s+/g, ' ')` (line 48). -/
def collWs (l : List Char) : List Char :=
  collWsAux false l

/-- Length of the part of `w` up to and including its last `'\n'`
(`0` when `w` has no newline). -/
def afterLastNl (w : List Char) : Nat :=
  w.length - (w.reverse.takeWhile (fun c => c ≠ '\n')).length

/-- `.replace(/\n\s*\n\s*\n/g, '\n\n')` (line 49), with fuel.  A match starts at
a `'\n'` whose maximal following whitespace run contains at least two more
newlines; with both `\s*` greedy the match extends exactly to the last newline
of that run, and is replaced by two newlines. -/
def collNlF : Nat → List Char → List Char
  | _, [] => []
  | 0, l => l
  | fuel + 1, c :: rest =>
    if c = '\n' ∧ 2 ≤ (rest.takeWhile isWs).count '\n' then
      '\n' :: '\n' :: collNlF fuel (rest.drop (afterLastNl (rest.takeWhile isWs)))
    else c :: collNlF fuel rest

/-- `.replace(/\n\s*\n\s*\n/g, '\n\n')` (line 49). -/
def collNl (l : List Char) : List Char :=
  collNlF l.length l

/-- `.trim()` (line 50): strip leading and trailing whitespace. -/
def trimL (l : List Char) : List Char :=
  ((l.dropWhile isWs).reverse.dropWhile isWs).reverse

/-- `cleanText` (browser-content.js lines 45–51) on character lists: the four
passes in source order. -/
def cleanTextL (l : List Char) : List Char :=
  trimL (collNl (collWs (rmParens l)))

/-- `cleanText` on strings. -/
def cleanText (s : String) : String :=
  (cleanTextL s.toList).asString

example : cleanText "foo(  )bar" = "foobar" := by decide
example : cleanText "a\n\n\n\nb" = "a b" := by decide
example : cleanText "(( ))" = "()" := by decide
example : cleanText "()" = "" := by decide
example : cleanText "  hi   there\t " = "hi there" := by decide
example : collNl "a\n\n\n\nb".toList = "a\n\nb".toList := by decide
example : collNl "x\n \n \n y".toList = "x\n\n y".toList := by decide

/-! ## DOM model

A minimal DOM for the queries `fallbackExtraction` performs: element nodes with
a tag name, an attribute list, children, and text nodes.  `querySelector`
returns the first match in document order, i.e. pre-order depth-first. -/

/-- A DOM node. -/
inductive Node where
  | text : String → Node
  | elem : String → List (String × String) → List Node → Node

/-- First value of attribute `k`. -/
def getAttr (attrs : List (String × String)) (k : String) : Option String :=
  (attrs.find? (fun p => p.1 = k)).map (fun p => p.2)

/-- Split a character list on whitespace into its non-empty tokens
(accumulator holds the current token reversed). -/
def wsSplitAux (cur : List Char) : List Char → List (List Char)
  | [] => if cur.isEmpty then [] else [cur.reverse]
  | c :: rest =>
    if isWs c then
      if cur.isEmpty then wsSplitAux [] rest
      else cur.reverse :: wsSplitAux [] rest
    else wsSplitAux (c :: cur) rest

/-- The class tokens of an attribute list: the whitespace-separated words of
the `class` attribute (what a CSS class selector matches against). -/
def classTokens (attrs : List (String × String)) : List String :=
  match getAttr attrs "class" with
  | none => []
  | some s => (wsSplitAux [] s.toList).map List.asString

/-- Tags removed by `fallbackExtraction` (browser-content.js line 58). -/
def chromeTags : List String := ["script", "style", "nav", "header", "footer", "aside"]

/-- Class names removed by `fallbackExtraction` (line 58). -/
def chromeClasses : List String := ["navigation", "menu", "sidebar"]

/-- Whether an element matches the removal selector
`script, style, nav, header, footer, aside, .navigation, .menu, .sidebar`. -/
def isChrome (tag : String) (attrs : List (String × String)) : Bool :=
  chromeTags.contains tag
    || (classTokens attrs).any (fun c => chromeClasses.contains c)

mutual
/-- Chrome removal (lines 58–59): delete every element matching the removal
selector, together with its subtree (removing an ancestor removes its
descendants, so collecting all matches and removing them equals this
recursive prune). -/
def pruneN : Node → Option Node
  | .text s => some (.text s)
  | .elem t a ch => if isChrome t a then none else some (.elem t a (pruneL ch))

/-- `pruneN` over a child list. -/
def pruneL : List Node → List Node
  | [] => []
  | n :: ns =>
    match pruneN n with
    | none => pruneL ns
    | some m => m :: pruneL ns
end

mutual
/-- `Node.textContent`: concatenation of all text-node data in the subtree. -/
def textContent : Node → String
  | .text s => s
  | .elem _ _ ch => textContentL ch

/-- `textContent` over a child list. -/
def textContentL : List Node → String
  | [] => ""
  | n :: ns => textContent n ++ textContentL ns
end

mutual
/-- `querySelector`: the first element, in document order (pre-order DFS),
satisfying `p` on its tag and attributes. -/
def findE (p : String → List (String × String) → Bool) : Node → Option Node
  | .text _ => none
  | .elem t a ch => if p t a then some (.elem t a ch) else findEL p ch

/-- `findE` over a child list. -/
def findEL (p : String → List (String × String) → Bool) : List Node → Option Node
  | [] => none
  | n :: ns =>
    match findE p n with
    | some m => some m
    | none => findEL p ns
end

mutual
/-- All elements of the subtree in document order (pre-order DFS). -/
def elemsPre : Node → List Node
  | .text _ => []
  | .elem t a ch => .elem t a ch :: elemsPreL ch

/-- `elemsPre` over a child list. -/
def elemsPreL : List Node → List Node
  | [] => []
  | n :: ns => elemsPre n ++ elemsPreL ns
end

mutual
/-- No element of the subtree matches the chrome-removal selector. -/
def noChrome : Node → Bool
  | .text _ => true
  | .elem t a ch => !isChrome t a && noChromeL ch

/-- `noChrome` over a child list. -/
def noChromeL : List Node → Bool
  | [] => true
  | n :: ns => noChrome n && noChromeL ns
end

/-- Selector `main`. -/
def isMainP (t : String) (_ : List (String × String)) : Bool := t = "main"

/-- Selector `article`. -/
def isArticleP (t : String) (_ : List (String × String)) : Bool := t = "article"

/-- Selector `[role="main"]`. -/
def isRoleMainP (_ : String) (a : List (String × String)) : Bool :=
  getAttr a "role" = some "main"

/-- Selector `.content`. -/
def isClassContentP (_ : String) (a : List (String × String)) : Bool :=
  (classTokens a).contains "content"

/-- Selector `#content`. -/
def isIdContentP (_ : String) (a : List (String × String)) : Bool :=
  getAttr a "id" = some "content"

/-- `document.body` (modelled as the first `body` element in document order). -/
def isBodyP (t : String) (_ : List (String × String)) : Bool := t = "body"

/-- The `<title>` element. -/
def isTitleP (t : String) (_ : List (String × String)) : Bool := t = "title"

/-- `querySelector` on a possibly-empty document. -/
def qsel (p : String → List (String × String) → Bool) (d : Option Node) : Option Node :=
  d.bind (findE p)

/-- Main-content root selection (lines 62–67): the `||` chain
`main` / `article` / `[role="main"]` / `.content` / `#content` / `doc.body`. -/
def selectRoot (d : Option Node) : Option Node :=
  match qsel isMainP d with
  | some n => some n
  | none =>
    match qsel isArticleP d with
    | some n => some n
    | none =>
      match qsel isRoleMainP d with
      | some n => some n
      | none =>
        match qsel isClassContentP d with
        | some n => some n
        | none =>
          match qsel isIdContentP d with
          | some n => some n
          | none => qsel isBodyP d

/-- ASCII whitespace (the set used by the HTML `document.title` getter). -/
def isAsciiWs (c : Char) : Bool :=
  c = ' ' || c = '\t' || c = '\n' || c = '\x0c' || c = '\r'

/-- Collapse runs of characters satisfying `p` to a single space. -/
def collapseRuns (p : Char → Bool) (prevWs : Bool) : List Char → List Char
  | [] => []
  | c :: rest =>
    if p c then
      if prevWs then collapseRuns p true rest
      else ' ' :: collapseRuns p true rest
    else c :: collapseRuns p false rest

/-- Drop characters satisfying `p` from both ends. -/
def dropEnds (p : Char → Bool) (l : List Char) : List Char :=
  ((l.dropWhile p).reverse.dropWhile p).reverse

/-- HTML "strip and collapse ASCII whitespace". -/
def stripAndCollapse (s : String) : String :=
  (dropEnds isAsciiWs (collapseRuns isAsciiWs false s.toList)).asString

/-- `document.title` (jsdom, per the HTML spec): the stripped-and-collapsed
child text content of the first `<title>` element, `""` when absent. -/
def documentTitle (d : Node) : String :=
  match findE isTitleP d with
  | some n => stripAndCollapse (textContent n)
  | none => ""

/-! ## The extraction pipeline -/

/-- The result of the primary (Readability) extraction: a derived title and the
extracted node's HTML. -/
structure Article where
  title : String
  content : String

/-- A successful extraction (browser-content.js line 107). -/
structure ExtractResult where
  finalUrl : String
  title : String
  content : String

/-- The typed failure thrown at line 104, carrying the measured length and the
threshold. -/
inductive ExtractError where
  | insufficientContent (measured minimum : Nat)

/-- browser-content.js line 12. -/
def MIN_CONTENT_LENGTH : Nat := 100

/-- The external libraries the pipeline calls, as stateless services:
`parse html url` is `new JSDOM(html, { url }).window.document`,
`readability` is `new Readability(doc).parse()`, and `turndown` is
`turndownService.turndown` as configured at lines 89–93. -/
structure Services where
  parse : String → String → Node
  readability : Node → Option Article
  turndown : String → String

/-- `mainContent ? mainContent.textContent : ''` (line 69). -/
def textContentOpt : Option Node → String
  | some n => textContent n
  | none => ""

/-- `fallbackExtraction(html, url)` (lines 53–71): re-parse, remove chrome,
select the main-content root, take its plain text (empty when even `doc.body`
is gone), and clean it. -/
def fallbackExtraction (svc : Services) (html url : String) : String :=
  let doc := svc.parse html url
  cleanText (textContentOpt (selectRoot (pruneN doc)))

/-- The `content` string computed at lines 86–101: primary-path Markdown
(converted then cleaned) when Readability returns an article, otherwise the
fallback extraction. -/
def contentOf (svc : Services) (finalUrl html : String) : String :=
  match svc.readability (svc.parse html finalUrl) with
  | some a => cleanText (svc.turndown a.content)
  | none => fallbackExtraction svc html finalUrl

/-- The `title` string computed at lines 86–101: the article's title on the
primary path, otherwise `document.title || 'Untitled'`. -/
def titleOf (svc : Services) (finalUrl html : String) : String :=
  match svc.readability (svc.parse html finalUrl) with
  | some a => a.title
  | none =>
    if documentTitle (svc.parse html finalUrl) = "" then "Untitled"
    else documentTitle (svc.parse html finalUrl)

/-- `extractContent` (lines 79–108) from `(finalUrl, html)` on: compute title
and content, then apply the quality gate at lines 103–105. -/
def extractContent (svc : Services) (finalUrl html : String) :
    Except ExtractError ExtractResult :=
  if (contentOf svc finalUrl html).length < MIN_CONTENT_LENGTH then
    .error (.insufficientContent (contentOf svc finalUrl html).length MIN_CONTENT_LENGTH)
  else
    .ok ⟨finalUrl, titleOf svc finalUrl html, contentOf svc finalUrl html⟩

/-- A batch of independent invocations (claim C10's "across calls"): each call
is a pure function of its own `(finalUrl, html)` input. -/
def extractMany (svc : Services) (inputs : List (String × String)) :
    List (Except ExtractError ExtractResult) :=
  inputs.map (fun p => extractContent svc p.1 p.2)

/-! ## Turndown model

A small model of the Turndown HTML→Markdown converter, covering the rules the
spec's fidelity property talks about: headings (`headingStyle`: ATX `##` vs
setext underlines) and `<pre><code>` blocks (`codeBlockStyle`: fenced vs
four-space indented), paragraphs, and generic containers whose child blocks are
joined by a blank line. -/

/-- Turndown's `headingStyle` option. -/
inductive HeadingStyle where
  | atx
  | setext
deriving DecidableEq

/-- Turndown's `codeBlockStyle` option. -/
inductive CodeBlockStyle where
  | fenced
  | indented
deriving DecidableEq

/-- The options a `TurndownService` is constructed with. -/
structure TdConfig where
  headingStyle : HeadingStyle
  codeBlockStyle : CodeBlockStyle

/-- The configuration at browser-content.js lines 89–92:
`{ headingStyle: 'atx', codeBlockStyle: 'fenced' }`. -/
def srcTurndownConfig : TdConfig := ⟨HeadingStyle.atx, CodeBlockStyle.fenced⟩

/-- `h1`…`h6` tag → heading level. -/
def headingLevel (t : String) : Option Nat :=
  if t = "h1" then some 1
  else if t = "h2" then some 2
  else if t = "h3" then some 3
  else if t = "h4" then some 4
  else if t = "h5" then some 5
  else if t = "h6" then some 6
  else none

/-- Split on `'\n'` into lines (accumulator holds the current line reversed). -/
def splitNlAux (cur : List Char) : List Char → List (List Char)
  | [] => [cur.reverse]
  | c :: rest =>
    if c = '\n' then cur.reverse :: splitNlAux [] rest
    else splitNlAux (c :: cur) rest

/-- The lines of a character list. -/
def linesOf (l : List Char) : List (List Char) :=
  splitNlAux [] l

/-- Prefix every line with four spaces (Turndown's indented code style). -/
def indentLines (l : List Char) : List Char :=
  List.intercalate ['\n'] ((linesOf l).map (fun ln => ' ' :: ' ' :: ' ' :: ' ' :: ln))

mutual
/-- Turndown's conversion of one block-level node under configuration `cfg`. -/
def tdBlock (cfg : TdConfig) : Node → String
  | .text s => s
  | .elem t _ ch =>
    match headingLevel t with
    | some lvl =>
      match cfg.headingStyle with
      | .atx => (List.replicate lvl '#').asString ++ " " ++ textContentL ch
      | .setext =>
        if lvl ≤ 2 then
          textContentL ch ++ "\n" ++
            (List.replicate (textContentL ch).length (if lvl = 1 then '=' else '-')).asString
        else (List.replicate lvl '#').asString ++ " " ++ textContentL ch
    | none =>
      if t = "p" then textContentL ch
      else if t = "pre" then
        match cfg.codeBlockStyle with
        | .fenced => "```\n" ++ textContentL ch ++ "\n```"
        | .indented => (indentLines (textContentL ch).toList).asString
      else tdBlocks cfg ch

/-- Turndown's conversion of a list of sibling blocks, separated by a blank
line. -/
def tdBlocks (cfg : TdConfig) : List Node → String
  | [] => ""
  | [n] => tdBlock cfg n
  | n :: ns => tdBlock cfg n ++ "\n\n" ++ tdBlocks cfg ns
end

/-- Does a line begin with `##`? -/
def startsHH : List Char → Bool
  | '#' :: '#' :: _ => true
  | _ => false

/-! ## Properties of the cleaning pass -/

/-- Is the first character whitespace? (`false` on the empty list.) -/
def headWsB : List Char → Bool
  | [] => false
  | c :: _ => isWs c

/-- No two adjacent whitespace characters. -/
def noAdjWs : List Char → Bool
  | [] => true
  | c :: rest => (!(isWs c && headWsB rest)) && noAdjWs rest

theorem collWsAux_ws_mem (l : List Char) :
    ∀ (b : Bool) (c : Char), c ∈ collWsAux b l → isWs c = true → c = ' ' := by
  induction l with
  | nil => intro b c h _; simp [collWsAux] at h
  | cons a rest ih =>
    intro b c hm hws
    unfold collWsAux at hm
    by_cases ha : isWs a
    · rw [if_pos ha] at hm
      cases b with
      | true => simp only [if_pos rfl] at hm; exact ih true c hm hws
      | false =>
        rw [if_neg Bool.false_ne_true] at hm
        rcases List.mem_cons.mp hm with h | h
        · exact h
        · exact ih true c h hws
    · rw [if_neg ha] at hm
      rcases List.mem_cons.mp hm with h | h
      · exact absurd (h ▸ hws) (by simpa using ha)
      · exact ih false c h hws

theorem collWsAux_shape (l : List Char) :
    ∀ b : Bool, noAdjWs (collWsAux b l) = true ∧
      (b = true → headWsB (collWsAux b l) = false) := by
  induction l with
  | nil => intro b; exact ⟨rfl, fun _ => rfl⟩
  | cons a rest ih =>
    intro b
    unfold collWsAux
    by_cases ha : isWs a
    · rw [if_pos ha]
      cases b with
      | true => simpa using ih true
      | false =>
        rw [if_neg Bool.false_ne_true]
        refine ⟨?_, fun h => by cases h⟩
        have h1 := (ih true).1
        have h2 := (ih true).2 rfl
        simp [noAdjWs, h1, h2]
    · rw [if_neg ha]
      refine ⟨?_, fun _ => by simpa [headWsB] using ha⟩
      have h1 := (ih false).1
      simp [noAdjWs, h1, ha]

theorem nl_not_mem_collWsAux (l : List Char) (b : Bool) :
    '\n' ∉ collWsAux b l := by
  intro hm
  have := collWsAux_ws_mem l b '\n' hm (by decide)
  cases this

theorem collNlF_eq_of_no_nl : ∀ (fuel : Nat) (l : List Char), '\n' ∉ l → collNlF fuel l = l := by
  intro fuel
  induction fuel with
  | zero => intro l _; cases l <;> rfl
  | succ n ih =>
    intro l hl
    cases l with
    | nil => rfl
    | cons c rest =>
      have hc : ¬ c = '\n' := fun h => hl (h ▸ List.mem_cons_self c rest)
      unfold collNlF
      rw [if_neg (fun h => hc h.1)]
      rw [ih rest (fun h => hl (List.mem_cons_of_mem c h))]

theorem mem_trimL {c : Char} {l : List Char} (h : c ∈ trimL l) : c ∈ l := by
  unfold trimL at h
  rw [List.mem_reverse] at h
  have h2 := (List.dropWhile_suffix isWs).sublist.mem h
  rw [List.mem_reverse] at h2
  exact (List.dropWhile_suffix isWs).sublist.mem h2

theorem head?_dropWhile_not_ws (l : List Char) :
    ∀ c, (l.dropWhile isWs).head? = some c → isWs c = false := by
  induction l with
  | nil => intro c h; cases h
  | cons a rest ih =>
    intro c h
    by_cases ha : isWs a
    · rw [List.dropWhile_cons_of_pos ha] at h
      exact ih c h
    · rw [List.dropWhile_cons_of_neg ha] at h
      cases h
      simpa using ha

theorem trimL_getLast (l : List Char) :
    ∀ c, (trimL l).getLast? = some c → isWs c = false := by
  intro c h
  unfold trimL at h
  rw [List.getLast?_reverse] at h
  exact head?_dropWhile_not_ws _ c h

theorem trimL_head (l : List Char) :
    ∀ c, (trimL l).head? = some c → isWs c = false := by
  intro c h
  unfold trimL at h
  rw [List.head?_reverse] at h
  have hzne : (l.dropWhile isWs).reverse.dropWhile isWs ≠ [] := by
    intro hz; rw [hz] at h; cases h
  obtain ⟨pre, hpre⟩ := List.dropWhile_suffix (l := (l.dropWhile isWs).reverse) isWs
  have h2 : (l.dropWhile isWs).reverse.getLast? = some c := by
    rw [← hpre, List.getLast?_append_of_ne_nil pre hzne]
    exact h
  rw [List.getLast?_reverse] at h2
  exact head?_dropWhile_not_ws l c h2

theorem noAdjWs_iff_chain :
    (l : List Char) →
      (noAdjWs l = true ↔ l.Chain' (fun a b => ¬(isWs a = true ∧ isWs b = true)))
  | [] => by simp [noAdjWs]
  | [c] => by simp [noAdjWs, headWsB]
  | c :: d :: rest => by
    rw [List.chain'_cons, ← noAdjWs_iff_chain (d :: rest)]
    show ((!(isWs c && headWsB (d :: rest))) && noAdjWs (d :: rest)) = true ↔ _
    rw [headWsB, Bool.and_eq_true]
    constructor
    · rintro ⟨h1, h2⟩
      refine ⟨?_, h2⟩
      rintro ⟨hx, hy⟩
      rw [hx, hy] at h1
      cases h1
    · rintro ⟨h1, h2⟩
      refine ⟨?_, h2⟩
      by_cases hx : isWs c = true
      · by_cases hy : isWs d = true
        · exact absurd ⟨hx, hy⟩ h1
        · simp [hy]
      · simp [hx]

theorem noAdjWs_trimL (l : List Char) (h : noAdjWs l = true) : noAdjWs (trimL l) = true := by
  rw [noAdjWs_iff_chain] at h ⊢
  unfold trimL
  have hsymm : ∀ (a b : Char), ¬(isWs a = true ∧ isWs b = true) →
      ¬(isWs b = true ∧ isWs a = true) := fun a b hab hc => hab ⟨hc.2, hc.1⟩
  have h1 := h.suffix (List.dropWhile_suffix isWs)
  have h2 := List.chain'_reverse.mpr (h1.imp hsymm)
  have h3 := h2.suffix (List.dropWhile_suffix isWs)
  exact List.chain'_reverse.mpr (h3.imp hsymm)

theorem dropWhile_eq_self_of_head (l : List Char)
    (h : ∀ c, l.head? = some c → isWs c = false) : l.dropWhile isWs = l := by
  cases l with
  | nil => rfl
  | cons a rest =>
    have := h a rfl
    rw [List.dropWhile_cons_of_neg (by simp [this])]

theorem trimL_eq_self (l : List Char)
    (hh : ∀ c, l.head? = some c → isWs c = false)
    (hl : ∀ c, l.getLast? = some c → isWs c = false) : trimL l = l := by
  unfold trimL
  rw [dropWhile_eq_self_of_head l hh]
  have : l.reverse.dropWhile isWs = l.reverse := by
    apply dropWhile_eq_self_of_head
    intro c hc
    rw [List.head?_reverse] at hc
    exact hl c hc
  rw [this, List.reverse_reverse]

theorem collWsAux_eq_self (l : List Char) :
    (∀ c ∈ l, isWs c = true → c = ' ') → noAdjWs l = true →
    ∀ b : Bool, (b = true → headWsB l = false) → collWsAux b l = l := by
  induction l with
  | nil => intro _ _ b _; rfl
  | cons a rest ih =>
    intro hws hadj b hb
    unfold collWsAux
    by_cases ha : isWs a
    · have ha' : a = ' ' := hws a (List.mem_cons_self a rest) ha
      rw [if_pos ha]
      cases b with
      | true =>
        exact absurd (hb rfl) (by simp [headWsB, ha])
      | false =>
        rw [if_neg Bool.false_ne_true]
        unfold noAdjWs at hadj
        rw [Bool.and_eq_true] at hadj
        have hrest : headWsB rest = false := by
          rcases hadj with ⟨h1, _⟩
          by_cases hr : headWsB rest = true
          · rw [ha, hr] at h1; cases h1
          · simpa using hr
        rw [ha', ih (fun c hc => hws c (List.mem_cons_of_mem a hc)) hadj.2 true (fun _ => hrest)]
    · rw [if_neg ha]
      unfold noAdjWs at hadj
      rw [Bool.and_eq_true] at hadj
      rw [ih (fun c hc => hws c (List.mem_cons_of_mem a hc)) hadj.2 false (by intro h; cases h)]

/-- After `collWs`, the newline-collapsing pass is the identity, so
`cleanTextL` is `trimL ∘ collWs ∘ rmParens`. -/
theorem nl_not_mem_collWs (l : List Char) : '\n' ∉ collWs l :=
  nl_not_mem_collWsAux l false

theorem cleanTextL_eq (l : List Char) :
    cleanTextL l = trimL (collWs (rmParens l)) := by
  unfold cleanTextL collNl
  rw [collNlF_eq_of_no_nl _ _ (nl_not_mem_collWs _)]

theorem cleanTextL_ws_mem (l : List Char) :
    ∀ c ∈ cleanTextL l, isWs c = true → c = ' ' := by
  rw [cleanTextL_eq]
  intro c hc hws
  exact collWsAux_ws_mem _ false c (mem_trimL hc) hws

theorem cleanTextL_no_nl (l : List Char) : '\n' ∉ cleanTextL l := by
  intro hm
  have := cleanTextL_ws_mem l '\n' hm (by decide)
  cases this

theorem cleanTextL_noAdj (l : List Char) : noAdjWs (cleanTextL l) = true := by
  rw [cleanTextL_eq]
  exact noAdjWs_trimL _ (collWsAux_shape _ false).1

theorem cleanTextL_head (l : List Char) :
    ∀ c, (cleanTextL l).head? = some c → isWs c = false := by
  rw [cleanTextL_eq]; exact trimL_head _

theorem cleanTextL_getLast (l : List Char) :
    ∀ c, (cleanTextL l).getLast? = some c → isWs c = false := by
  rw [cleanTextL_eq]; exact trimL_getLast _

theorem collNl_eq_of_no_nl (l : List Char) (h : '\n' ∉ l) : collNl l = l :=
  collNlF_eq_of_no_nl l.length l h

theorem cleanTextL_idem (l : List Char)
    (hP : rmParens (cleanTextL l) = cleanTextL l) :
    cleanTextL (cleanTextL l) = cleanTextL l := by
  have h1 : cleanTextL (cleanTextL l) =
      trimL (collNl (collWs (rmParens (cleanTextL l)))) := rfl
  rw [h1, hP]
  have hcw : collWs (cleanTextL l) = cleanTextL l :=
    collWsAux_eq_self (cleanTextL l) (cleanTextL_ws_mem l) (cleanTextL_noAdj l)
      false (fun h => by cases h)
  rw [hcw, collNl_eq_of_no_nl (cleanTextL l) (cleanTextL_no_nl l)]
  exact trimL_eq_self (cleanTextL l) (cleanTextL_head l) (cleanTextL_getLast l)

/-! ## Claim theorems: the cleaning pass (C2, C3, C4) -/

/-- C2: evaluating `cleanText` at the spec's own examples.  The parenthetical
example holds (`"foo(  )bar"` → `"foobar"`), but `"a\n\n\n\nb"` cleans to
`"a b"`, not `"a\n\nb"`: the `\s+ → ' '` pass (line 48) runs before the
newline-collapsing pass (line 49) and erases every newline first, so the
three-or-more-newlines rule (whose regex at line 49 can consequently never
match anything) never fires. -/
theorem C2_whitespace_collapse_eval :
    cleanText "foo(  )bar" = "foobar" ∧
    cleanText "a\n\n\n\nb" = "a b" ∧
    cleanText "a\n\n\n\nb" ≠ "a\n\nb" := by decide

/-- C3 counterexample: `cleanText` is not idempotent.  On `"(( ))"` the first
pass removes the inner `( )` producing `"()"`, which a second application
removes entirely. -/
theorem C3_not_idempotent_counterexample :
    cleanText (cleanText "(( ))") ≠ cleanText "(( ))" ∧
    cleanText "(( ))" = "()" ∧
    cleanText (cleanText "(( ))") = "" := by decide

/-- C3 amended: `cleanText` is idempotent on every input whose cleaned output
is a fixed point of the empty-parenthetical-removal pass (in particular on any
input whose cleaned output contains no `(`-whitespace-`)` token); removal of
nested empty parentheticals can create new ones, which is the only source of
non-idempotence. -/
theorem C3_cleanText_idem_of_paren_fixed (s : String)
    (hP : rmParens (cleanText s).toList = (cleanText s).toList) :
    cleanText (cleanText s) = cleanText s :=
  congrArg List.asString (cleanTextL_idem s.toList hP)

theorem C3_witness : cleanText (cleanText "hello world") = cleanText "hello world" :=
  C3_cleanText_idem_of_paren_fixed "hello world" (by decide)

/-- C4: for every input string the cleaned output contains no newline (so no
paragraph break survives and the result is a single line) and has no leading or
trailing whitespace. -/
theorem C4_single_line_no_edge_ws (s : String) :
    '\n' ∉ (cleanText s).toList ∧
    (∀ c, (cleanText s).toList.head? = some c → isWs c = false) ∧
    (∀ c, (cleanText s).toList.getLast? = some c → isWs c = false) :=
  ⟨cleanTextL_no_nl s.toList, cleanTextL_head s.toList, cleanTextL_getLast s.toList⟩

theorem C4_witness :
    '\n' ∉ (cleanText "a\nb").toList ∧ isWs 'a' = false ∧ isWs 'b' = false :=
  ⟨(C4_single_line_no_edge_ws "a\nb").1,
   (C4_single_line_no_edge_ws "a\nb").2.1 'a' rfl,
   (C4_single_line_no_edge_ws "a\nb").2.2 'b' rfl⟩

/-! ## Claim theorems: the pipeline (C1, C7, C9, C10)

Concrete service instances used by the witnesses. -/

/-- 120 content characters. -/
def longA : String := (List.replicate 120 'a').asString

/-- Services where parsing yields a bare text node and Readability finds
nothing, so the fallback extracts the empty string. -/
def svcShortC1 : Services :=
  ⟨fun _ _ => Node.text "hi", fun _ => none, fun s => s⟩

/-- Services where Readability succeeds with title `"T"` and the converter
produces 120 characters. -/
def svcLongC1 : Services :=
  ⟨fun _ _ => Node.text "", fun _ => some ⟨"T", ""⟩, fun _ => longA⟩

/-- A document whose `<main>` holds 120 characters and which has no
`<title>`. -/
def docMainLong : Node :=
  Node.elem "html" [] [Node.elem "body" [] [Node.elem "main" [] [Node.text longA]]]

/-- Services where Readability finds nothing and the fallback succeeds on
`docMainLong`. -/
def svcFallback : Services :=
  ⟨fun _ _ => docMainLong, fun _ => none, fun s => s⟩

/-- Services where Readability returns an article whose title is empty. -/
def svcEmptyTitle : Services :=
  ⟨fun _ _ => Node.text "", fun _ => some ⟨"", ""⟩, fun _ => longA⟩

/-- C1: the quality gate.  A successful call returns exactly the computed
title/content pair (never a partial result) with content length at least
`MIN_CONTENT_LENGTH` (100); whenever the computed content — primary-path
Markdown or fallback-path text alike, since the statement quantifies over
every Readability outcome — is shorter than 100 characters, the call fails
with `insufficientContent` carrying the measured length and the threshold. -/
theorem C1_quality_gate (svc : Services) (u h : String) :
    (∀ r, extractContent svc u h = Except.ok r →
      MIN_CONTENT_LENGTH ≤ r.content.length ∧
        r = ⟨u, titleOf svc u h, contentOf svc u h⟩) ∧
    ((contentOf svc u h).length < MIN_CONTENT_LENGTH →
      extractContent svc u h =
        Except.error (ExtractError.insufficientContent
          (contentOf svc u h).length MIN_CONTENT_LENGTH)) := by
  constructor
  · intro r hr
    unfold extractContent at hr
    by_cases hc : (contentOf svc u h).length < MIN_CONTENT_LENGTH
    · rw [if_pos hc] at hr; cases hr
    · rw [if_neg hc] at hr
      cases hr
      exact ⟨Nat.le_of_not_lt hc, rfl⟩
  · intro hlt
    unfold extractContent
    rw [if_pos hlt]

theorem C1_witness :
    extractContent svcShortC1 "u" "h" =
      Except.error (ExtractError.insufficientContent 0 100) ∧
    100 ≤ (ExtractResult.content ⟨"u", "T", longA⟩).length :=
  ⟨(C1_quality_gate svcShortC1 "u" "h").2 (by decide),
   ((C1_quality_gate svcLongC1 "u" "h").1 ⟨"u", "T", longA⟩ rfl).1⟩

/-- C7: whenever primary extraction yields a null result, a successful result's
title is `document.title`, or exactly `"Untitled"` when the `<title>` element
is absent or its text is empty (i.e. when `document.title` is the empty
string). -/
theorem C7_title_fallback (svc : Services) (u h : String)
    (hR : svc.readability (svc.parse h u) = none) :
    ∀ r, extractContent svc u h = Except.ok r →
      r.title = (if documentTitle (svc.parse h u) = "" then "Untitled"
                 else documentTitle (svc.parse h u)) := by
  intro r hr
  unfold extractContent at hr
  by_cases hc : (contentOf svc u h).length < MIN_CONTENT_LENGTH
  · rw [if_pos hc] at hr; cases hr
  · rw [if_neg hc] at hr
    cases hr
    show titleOf svc u h = _
    unfold titleOf
    rw [hR]

theorem C7_witness :
    (ExtractResult.title ⟨"u", "Untitled", longA⟩) =
      (if documentTitle (svcFallback.parse "h" "u") = "" then "Untitled"
       else documentTitle (svcFallback.parse "h" "u")) :=
  C7_title_fallback svcFallback "u" "h" rfl ⟨"u", "Untitled", longA⟩ rfl

/-- C9 counterexample: a successful extraction can return an empty title.  When
Readability returns an article whose derived title is the empty string (which
its title heuristics permit), the primary path copies it unguarded — the
`|| 'Untitled'` default exists only on the fallback path. -/
theorem C9_empty_title_counterexample :
    extractContent svcEmptyTitle "u" "h" = Except.ok ⟨"u", "", longA⟩ ∧
    (ExtractResult.title ⟨"u", "", longA⟩) = "" :=
  ⟨rfl, rfl⟩

/-- C9 amended: on the fallback path a successful result's title is never
empty; on the primary path the title equals the primary extractor's title
verbatim, with no non-emptiness guard. -/
theorem C9_title_nonempty_fallback_only (svc : Services) (u h : String) :
    (svc.readability (svc.parse h u) = none →
      ∀ r, extractContent svc u h = Except.ok r → r.title ≠ "") ∧
    (∀ a, svc.readability (svc.parse h u) = some a →
      ∀ r, extractContent svc u h = Except.ok r → r.title = a.title) := by
  constructor
  · intro hR r hr
    unfold extractContent at hr
    by_cases hc : (contentOf svc u h).length < MIN_CONTENT_LENGTH
    · rw [if_pos hc] at hr; cases hr
    · rw [if_neg hc] at hr
      cases hr
      show titleOf svc u h ≠ ""
      unfold titleOf
      rw [hR]
      by_cases hd : documentTitle (svc.parse h u) = ""
      · rw [if_pos hd]; decide
      · rw [if_neg hd]; exact hd
  · intro a ha r hr
    unfold extractContent at hr
    by_cases hc : (contentOf svc u h).length < MIN_CONTENT_LENGTH
    · rw [if_pos hc] at hr; cases hr
    · rw [if_neg hc] at hr
      cases hr
      show titleOf svc u h = a.title
      unfold titleOf
      rw [ha]

theorem C9_witness :
    (ExtractResult.title ⟨"u", "Untitled", longA⟩) ≠ "" ∧
    (ExtractResult.title ⟨"u", "T", longA⟩) = Article.title ⟨"T", ""⟩ :=
  ⟨(C9_title_nonempty_fallback_only svcFallback "u" "h").1 rfl _ rfl,
   (C9_title_nonempty_fallback_only svcLongC1 "u" "h").2 ⟨"T", ""⟩ rfl _ rfl⟩

/-- C10: determinism/purity across calls.  In any batch of invocations the
outcome at each position is `extractContent` applied to that call's own
`(finalUrl, html)` input, independent of the calls before and after it: the
pipeline keeps no state between calls, and equal inputs give equal outcomes. -/
theorem C10_pure_across_calls (svc : Services) (pre post : List (String × String))
    (u h : String) :
    (extractMany svc (pre ++ (u, h) :: post))[pre.length]? =
      some (extractContent svc u h) := by
  unfold extractMany
  induction pre with
  | nil => simp
  | cons p ps ih => simpa using ih

/-! ## Claim theorems: fallback extraction (C5, C6) -/

/-- Lift a tag/attribute predicate to nodes (false on text nodes). -/
def nodeP (p : String → List (String × String) → Bool) : Node → Bool
  | .text _ => false
  | .elem t a _ => p t a

mutual
/-- `querySelector` is `find?` over the document-order element list. -/
theorem findE_eq_find? (p : String → List (String × String) → Bool) :
    (n : Node) → findE p n = (elemsPre n).find? (nodeP p)
  | .text _ => rfl
  | .elem t a ch => by
    show (if p t a then some (Node.elem t a ch) else findEL p ch) =
      (Node.elem t a ch :: elemsPreL ch).find? (nodeP p)
    by_cases hp : p t a
    · rw [if_pos hp, List.find?_cons_of_pos _ (show nodeP p (Node.elem t a ch) = true from hp)]
    · rw [if_neg hp, List.find?_cons_of_neg _ (show ¬ nodeP p (Node.elem t a ch) = true from hp),
        findEL_eq_find? p ch]

/-- `findEL_eq_find?`: list version. -/
theorem findEL_eq_find? (p : String → List (String × String) → Bool) :
    (ns : List Node) → findEL p ns = (elemsPreL ns).find? (nodeP p)
  | [] => rfl
  | n :: ns => by
    show (match findE p n with | some m => some m | none => findEL p ns) =
      (elemsPre n ++ elemsPreL ns).find? (nodeP p)
    rw [List.find?_append, ← findE_eq_find? p n, ← findEL_eq_find? p ns]
    cases findE p n <;> rfl
end

mutual
/-- Every node surviving the chrome-removal prune contains no chrome element. -/
theorem pruneN_noChrome : (n : Node) → ∀ m, pruneN n = some m → noChrome m = true
  | .text _ => by intro m hm; cases hm; rfl
  | .elem t a ch => by
    intro m hm
    unfold pruneN at hm
    by_cases hc : isChrome t a
    · rw [if_pos hc] at hm; cases hm
    · rw [if_neg hc] at hm
      cases hm
      show noChrome (Node.elem t a (pruneL ch)) = true
      unfold noChrome
      rw [pruneL_noChrome ch]
      simp [hc]

/-- `pruneL_noChrome`: list version. -/
theorem pruneL_noChrome : (ns : List Node) → noChromeL (pruneL ns) = true
  | [] => rfl
  | n :: ns => by
    unfold pruneL
    cases hn : pruneN n with
    | none => exact pruneL_noChrome ns
    | some m =>
      show noChromeL (m :: pruneL ns) = true
      unfold noChromeL
      rw [pruneN_noChrome n m hn, pruneL_noChrome ns]
      rfl
end

/-- The `a || b` steps of the selection chain, on the `find?` view. -/
theorem find?_chain_step (l : List Node) (p : Node → Bool) (rest : Option Node) :
    (match l.find? p with | some n => some n | none => rest) =
      if l.any p then l.find? p else rest := by
  cases hf : l.find? p with
  | none =>
    have ha : l.any p = false := by
      rw [Bool.eq_false_iff]
      intro hany
      obtain ⟨x, hx, hpx⟩ := List.any_eq_true.mp hany
      have := List.find?_eq_none.mp hf x hx
      exact this hpx
    simp [ha]
  | some v =>
    have ha : l.any p = true :=
      List.any_eq_true.mpr ⟨v, List.mem_of_find?_eq_some hf, List.find?_some hf⟩
    simp [ha, hf]

/-- On the fallback path the content is the cleaned text of the selected root
of the pruned document. -/
theorem contentOf_fallback (svc : Services) (u h : String)
    (hR : svc.readability (svc.parse h u) = none) :
    contentOf svc u h =
      cleanText (textContentOpt (selectRoot (pruneN (svc.parse h u)))) := by
  unfold contentOf
  rw [hR]
  rfl

/-- C6: after chrome removal, the main-content root is chosen by trying, in
this order, `main`, `article`, `[role="main"]`, `.content`, `#content`, and
finally `body`; the selected root is the document-order-first element of the
first selector that matches anything. -/
theorem C6_root_selection_order (doc pd : Node) (hp : pruneN doc = some pd) :
    selectRoot (pruneN doc) =
      (if (elemsPre pd).any (nodeP isMainP) then (elemsPre pd).find? (nodeP isMainP)
       else if (elemsPre pd).any (nodeP isArticleP) then (elemsPre pd).find? (nodeP isArticleP)
       else if (elemsPre pd).any (nodeP isRoleMainP) then (elemsPre pd).find? (nodeP isRoleMainP)
       else if (elemsPre pd).any (nodeP isClassContentP) then (elemsPre pd).find? (nodeP isClassContentP)
       else if (elemsPre pd).any (nodeP isIdContentP) then (elemsPre pd).find? (nodeP isIdContentP)
       else (elemsPre pd).find? (nodeP isBodyP)) := by
  rw [hp]
  show (match findE isMainP pd with
        | some n => some n
        | none =>
          match findE isArticleP pd with
          | some n => some n
          | none =>
            match findE isRoleMainP pd with
            | some n => some n
            | none =>
              match findE isClassContentP pd with
              | some n => some n
              | none =>
                match findE isIdContentP pd with
                | some n => some n
                | none => findE isBodyP pd) = _
  rw [findE_eq_find? isMainP pd, findE_eq_find? isArticleP pd,
    findE_eq_find? isRoleMainP pd, findE_eq_find? isClassContentP pd,
    findE_eq_find? isIdContentP pd, findE_eq_find? isBodyP pd]
  rw [find?_chain_step, find?_chain_step, find?_chain_step, find?_chain_step,
    find?_chain_step]

/-- A document holding both an `article` and a (later) `main` element. -/
def docC6 : Node :=
  Node.elem "html" []
    [Node.elem "body" []
      [Node.elem "article" [] [Node.text "a"], Node.elem "main" [] [Node.text "m"]]]

theorem C6_witness :
    (selectRoot (pruneN docC6) =
      (if (elemsPre docC6).any (nodeP isMainP) then (elemsPre docC6).find? (nodeP isMainP)
       else if (elemsPre docC6).any (nodeP isArticleP) then (elemsPre docC6).find? (nodeP isArticleP)
       else if (elemsPre docC6).any (nodeP isRoleMainP) then (elemsPre docC6).find? (nodeP isRoleMainP)
       else if (elemsPre docC6).any (nodeP isClassContentP) then (elemsPre docC6).find? (nodeP isClassContentP)
       else if (elemsPre docC6).any (nodeP isIdContentP) then (elemsPre docC6).find? (nodeP isIdContentP)
       else (elemsPre docC6).find? (nodeP isBodyP))) ∧
    selectRoot (pruneN docC6) = some (Node.elem "main" [] [Node.text "m"]) :=
  ⟨C6_root_selection_order docC6 docC6 rfl, rfl⟩

/-- 110 content characters. -/
def long110 : String := (List.replicate 110 'x').asString

/-- A `main` element whose visible text (115 characters) lives mostly inside a
nested `nav`. -/
def mainNode5 : Node :=
  Node.elem "main" [] [Node.text "short", Node.elem "nav" [] [Node.text long110]]

/-- A document containing `mainNode5`. -/
def doc5 : Node := Node.elem "html" [] [Node.elem "body" [] [mainNode5]]

/-- Services parsing to `doc5`, with a null primary extraction. -/
def svc5 : Services := ⟨fun _ _ => doc5, fun _ => none, fun s => s⟩

/-- C5 counterexample: a document with a `<main>` element of 115 characters of
visible text on which primary extraction is null, yet fallback extraction
fails the quality gate: almost all of the main element's text is inside a
nested `nav`, which chrome removal deletes, leaving 5 characters. -/
theorem C5_chrome_heavy_counterexample :
    (elemsPre doc5).find? (nodeP isMainP) = some mainNode5 ∧
    100 ≤ (textContent mainNode5).length ∧
    svc5.readability (svc5.parse "h" "u") = none ∧
    extractContent svc5 "u" "h" =
      Except.error (ExtractError.insufficientContent 5 100) :=
  ⟨rfl, by decide, rfl, rfl⟩

/-- C5 amended: when primary extraction is null and, *after* chrome removal,
the document still contains a `main` or `article` element and the cleaned text
of the selected root is at least 100 characters, the call succeeds with exactly
that cleaned text as content, and the pruned document contains no chrome
element (so the extracted text is computed from a chrome-free tree). -/
theorem C5_fallback_succeeds_on_clean_main (svc : Services) (u h : String)
    (hR : svc.readability (svc.parse h u) = none)
    (pd : Node) (hp : pruneN (svc.parse h u) = some pd)
    (hMA : (elemsPre pd).any (nodeP isMainP) = true ∨
           (elemsPre pd).any (nodeP isArticleP) = true)
    (hLen : 100 ≤ (cleanText (textContentOpt (selectRoot (some pd)))).length) :
    (∃ root, selectRoot (some pd) = some root) ∧
    extractContent svc u h =
      Except.ok ⟨u, titleOf svc u h, cleanText (textContentOpt (selectRoot (some pd)))⟩ ∧
    noChrome pd = true := by
  have hcontent : contentOf svc u h = cleanText (textContentOpt (selectRoot (some pd))) := by
    rw [contentOf_fallback svc u h hR, hp]
  refine ⟨?_, ?_, pruneN_noChrome _ pd hp⟩
  · -- a selected root exists because a `main` or `article` survives pruning
    rcases hMA with hM | hA
    · obtain ⟨x, hx, hpx⟩ := List.any_eq_true.mp hM
      obtain ⟨v, hv⟩ := Option.isSome_iff_exists.mp (List.find?_isSome.mpr ⟨x, hx, hpx⟩)
      refine ⟨v, ?_⟩
      show (match findE isMainP pd with
            | some n => some n
            | none => _) = some v
      rw [findE_eq_find? isMainP pd, hv]
    · cases hm : findE isMainP pd with
      | some v =>
        refine ⟨v, ?_⟩
        show (match findE isMainP pd with
              | some n => some n
              | none => _) = some v
        rw [hm]
      | none =>
        obtain ⟨x, hx, hpx⟩ := List.any_eq_true.mp hA
        obtain ⟨v, hv⟩ := Option.isSome_iff_exists.mp (List.find?_isSome.mpr ⟨x, hx, hpx⟩)
        refine ⟨v, ?_⟩
        show (match findE isMainP pd with
              | some n => some n
              | none =>
                match findE isArticleP pd with
                | some n => some n
                | none => _) = some v
        rw [hm, findE_eq_find? isArticleP pd, hv]
  · unfold extractContent MIN_CONTENT_LENGTH
    rw [hcontent, if_neg (Nat.not_lt.mpr hLen)]

theorem C5_witness :
    (∃ root, selectRoot (some docMainLong) = some root) ∧
    extractContent svcFallback "u" "h" =
      Except.ok ⟨"u", titleOf svcFallback "u" "h",
        cleanText (textContentOpt (selectRoot (some docMainLong)))⟩ ∧
    noChrome docMainLong = true :=
  C5_fallback_succeeds_on_clean_main svcFallback "u" "h" rfl docMainLong rfl
    (Or.inl (by decide)) (by decide)

/-! ## Claim theorem: Markdown fidelity (C8) -/

/-- An extracted root holding a paragraph, an `<h2>`, and a `<pre><code>`
block. -/
def root8 : Node :=
  Node.elem "div" []
    [Node.elem "p" [] [Node.text "This is the intro paragraph."],
     Node.elem "h2" [] [Node.text "Section"],
     Node.elem "pre" [] [Node.elem "code" [] [Node.text "let x = 1"]]]

/-- The Markdown the configured converter produces for `root8`. -/
def md8 : String := tdBlock srcTurndownConfig root8

/-- C8: with the source's converter configuration (`headingStyle: 'atx'`,
`codeBlockStyle: 'fenced'`) the conversion of `root8` — which contains an
`<h2>` — does produce a `##`-initial heading line and ```-delimited fence
lines; but the returned Markdown is `cleanText` of that conversion, which
collapses every newline, so the returned content is a single line in which no
line begins with `##` and no line is a fence delimiter. -/
theorem C8_markdown_fidelity_eval :
    (elemsPre root8).any (nodeP (fun t _ => t = "h2")) = true ∧
    (linesOf md8.toList).any startsHH = true ∧
    (linesOf md8.toList).contains "```".toList = true ∧
    linesOf (cleanText md8).toList = [(cleanText md8).toList] ∧
    (linesOf (cleanText md8).toList).any startsHH = false ∧
    (linesOf (cleanText md8).toList).contains "```".toList = false := by decide

end TrappiTools

